import Mathlib

/-!
Verification development for the deh9000 core: the DECORATE-style states
parser (`states_parser.py`), the state remapping algorithm, and the
struct/diff record model (`c.py`, instantiated by `sounds.py`).

Text is modelled as `List Char`; the Python 2 regular expressions of the
parser are ASCII-only (no `re.UNICODE`), so the character classes below are
the ASCII classes used by Python's `re` module.
-/

namespace DEH

/-- Python `\s` (ASCII): the whitespace characters recognised by `re` and by
`str.strip()`. -/
def isSpaceCh (c : Char) : Bool :=
  c = ' ' || c = '\t' || c = '\n' || c = '\x0b' || c = '\x0c' || c = '\r'

/-- Python `\w` (ASCII, no `re.UNICODE` flag): letters, digits, underscore. -/
def isWordCh (c : Char) : Bool :=
  c.isAlpha || c.isDigit || c = '_'

/-- Python `[a-z]` under `re.IGNORECASE`: any ASCII letter. -/
def isLetterCh (c : Char) : Bool := c.isAlpha

/-- Python `\d`: ASCII digits. -/
def isDigitCh (c : Char) : Bool := c.isDigit

/-- `defstr.split("\n")`; splitting the empty string yields one empty line,
as in Python. -/
def splitNL : List Char → List (List Char)
  | [] => [[]]
  | c :: cs =>
    match splitNL cs with
    | [] => if c = '\n' then [[], []] else [[c]]
    | l :: ls => if c = '\n' then [] :: l :: ls else (c :: l) :: ls

/-- One animation state record.  Modelled from the spec: `state_t` itself is
declared in `states.py`, which is outside `src/`; per the spec's data model a
State carries sprite code, frame code, duration in tics, an optional action
reference and the next-state link.  It is a plain `c.Struct` subclass, so
`Struct.__init__` (in `src/deh9000/c.py`) zero-initialises every field before
applying the constructor arguments; the pointer-like `action` field is viewed
as an optional reference (`none` standing for Python `None`). -/
structure state_t where
  sprite : Int := 0
  frame : Int := 0
  tics : Int := 0
  action : Option Nat := none
  nextstate : Int := 0
deriving DecidableEq

/-! ### Regular-expression matchers

Each Python regex of `states_parser.py` is hand-compiled to a deterministic
matcher over `List Char`.  For these particular patterns maximal-munch
scanning is complete (equivalent to the backtracking regex engine): every
repeated class (`\w+`, `[a-z]+`, `\d+`, `\s+`) is followed by a character
that the class cannot match, and each optional literal (`bright`, `A_\w+`,
`+<digits>`), when its first characters match, can only be followed by text
that also fails the not-taken alternative.  A matcher returns the captured
groups together with the unconsumed remainder of the line (Python's
`line[m.end():]`). -/

/-- Strip a case-insensitive literal (given in lowercase) from the front. -/
def stripCI : List Char → List Char → Option (List Char)
  | [], r => some r
  | _ :: _, [] => none
  | p :: ps, c :: r => if c.toLower = p then stripCI ps r else none

/-- Strip an exact-case literal from the front. -/
def stripLit : List Char → List Char → Option (List Char)
  | [], r => some r
  | _ :: _, [] => none
  | p :: ps, c :: r => if c = p then stripLit ps r else none

/-- `\s+`: require at least one whitespace character, then consume the run. -/
def reqSpace1 : List Char → Option (List Char)
  | [] => none
  | c :: r => if isSpaceCh c then some ((c :: r).dropWhile isSpaceCh) else none

/-- Decimal value of a digit run, as Python `int` on a digit string. -/
def digitsVal (l : List Char) : Nat :=
  l.foldl (fun a c => a * 10 + (c.toNat - 48)) 0

/-- `GOTO_LABEL_RE = r"\s*(?P<label>\w+)\s*:\s*"` (via `re.match`): returns
the captured label and the rest of the line after the final `\s*`. -/
def matchLabel (l : List Char) : Option (List Char × List Char) :=
  let l1 := l.dropWhile isSpaceCh
  match l1.takeWhile isWordCh with
  | [] => none
  | w =>
    match (l1.drop w.length).dropWhile isSpaceCh with
    | ':' :: r => some (w, r.dropWhile isSpaceCh)
    | _ => none

/-- Captured groups of `FRAME_DEF_RE`. -/
structure FrameParams where
  sprname : List Char
  frame : List Char
  tics : Int
  bright : Bool
  action : Option (List Char)
deriving DecidableEq

/-- Parse `-?\d+` and the following `\s*`, returning the value and rest. -/
def matchTics (l : List Char) : Option (Int × List Char) :=
  match l with
  | '-' :: r =>
    match r.takeWhile isDigitCh with
    | [] => none
    | d => some (-(digitsVal d : Int), (r.drop d.length).dropWhile isSpaceCh)
  | _ =>
    match l.takeWhile isDigitCh with
    | [] => none
    | d => some ((digitsVal d : Int), (l.drop d.length).dropWhile isSpaceCh)

/-- `(?P<action>A_\w+)?`: an action name keeps its original spelling; the
leading `A` is case-insensitive (`re.I`), the underscore exact. -/
def matchAction (l : List Char) : Option (List Char × List Char) :=
  match l with
  | a :: '_' :: r =>
    if a.toLower = 'a' then
      match r.takeWhile isWordCh with
      | [] => none
      | w => some (a :: '_' :: w, r.drop w.length)
    else none
  | _ => none

/-- `FRAME_DEF_RE`: four `\w` sprite chars, `\s+`, frame letters, `\s+`,
signed tics, optional `bright`, optional action, `\s*$`.  The whole line is
consumed on success. -/
def matchFrame (l : List Char) : Option (FrameParams × List Char) := do
  let l1 := l.dropWhile isSpaceCh
  match l1 with
  | c1 :: c2 :: c3 :: c4 :: r0 =>
    if isWordCh c1 && isWordCh c2 && isWordCh c3 && isWordCh c4 then do
      let r1 ← reqSpace1 r0
      match r1.takeWhile isLetterCh with
      | [] => none
      | fr => do
        let r2 ← reqSpace1 (r1.drop fr.length)
        let (tics, r3) ← matchTics r2
        let (bright, r4) :=
          match stripCI "bright".data r3 with
          | some r => (true, r)
          | none => (false, r3)
        let r5 := r4.dropWhile isSpaceCh
        let (action, r6) :=
          match matchAction r5 with
          | some (a, r) => (some a, r)
          | none => (none, r5)
        if (r6.dropWhile isSpaceCh).isEmpty then
          some (⟨[c1, c2, c3, c4], fr, tics, bright, action⟩, [])
        else none
    else none
  | _ => none

/-- `GOTO_STATEMENT_RE` (`re.I`): `Goto <label>` with optional `+ <offset>`;
consumes the whole line. -/
def matchGoto (l : List Char) : Option ((List Char × Nat) × List Char) := do
  let l1 := l.dropWhile isSpaceCh
  let r0 ← stripCI "goto".data l1
  let r1 ← reqSpace1 r0
  match r1.takeWhile isWordCh with
  | [] => none
  | w =>
    match (r1.drop w.length).dropWhile isSpaceCh with
    | '+' :: r2 =>
      match (r2.dropWhile isSpaceCh).takeWhile isDigitCh with
      | [] => none
      | d =>
        let r3 := (r2.dropWhile isSpaceCh).drop d.length
        if (r3.dropWhile isSpaceCh).isEmpty then some ((w, digitsVal d), [])
        else none
    | r2 => if r2.isEmpty then some ((w, 0), []) else none

/-- `LOOP_STATEMENT_RE`: `\s*Loop\s*$`, case-sensitive (no `re.I` flag). -/
def matchLoop (l : List Char) : Option (Unit × List Char) := do
  let r ← stripLit "Loop".data (l.dropWhile isSpaceCh)
  if (r.dropWhile isSpaceCh).isEmpty then some ((), []) else none

/-- `STOP_STATEMENT_RE`: `\s*Stop\s*$`, case-sensitive. -/
def matchStop (l : List Char) : Option (Unit × List Char) := do
  let r ← stripLit "Stop".data (l.dropWhile isSpaceCh)
  if (r.dropWhile isSpaceCh).isEmpty then some ((), []) else none

/-! ### The parser (`_Parser` of `states_parser.py`)

The parser is translated to a pure state-passing function.  Python raises
`StatesParseException` with a distinct message at each failure site; each
message becomes one constructor of `ParseError`.  The main loop and the
label loop take fuel (every iteration consumes input, so any fuel at least
`chars + lines + 2` suffices; running out is the `fuelOut` error, which the
concrete evaluations below never reach). -/

/-- One constructor per distinct `StatesParseException` message, plus the
implicit Python `IndexError`/`KeyError` escapes and fuel exhaustion. -/
inductive ParseError where
  | unknownSprite (name : List Char)
  | unknownAction (name : List Char)
  | labelDup (line : Nat) (name : List Char)
  | gotoUnknownLabel (line : Nat) (name : List Char)
  | gotoOffsetRange (line : Nat) (name : List Char) (offset : Nat)
  | loopNoState (line : Nat)
  | loopNoLabel (line : Nat)
  | stopNoState (line : Nat)
  | gotoNoState (line : Nat)
  | unterminated (line : Nat)
  | parseErr (line : Nat)
  | indexErr
  | fuelOut
deriving DecidableEq

/-- The external registries.  Modelled from the spec: the sprite table
(`sprites.py`) and the action registry (`actions.py`) are outside `src/`;
the spec treats both as opaque mappings whose absence of an entry is an
error.  `sprite` is consulted with the upper-cased four-character tag (the
`SPR_` prefixing of `sprite_for_name` is internal to the registry);
`action` maps an action-name spelling to an opaque non-null token. -/
structure Regs where
  sprite : List Char → Option Int
  action : List Char → Option Nat

/-- `sprite_for_name`. -/
def sprite_for_name (regs : Regs) (name : List Char) : Except ParseError Int :=
  match regs.sprite (name.map Char.toUpper) with
  | some n => .ok n
  | none => .error (.unknownSprite name)

/-- `action_pointer_for_name`; `None`/absent group gives `None`. -/
def action_pointer_for_name (regs : Regs) (name : Option (List Char)) :
    Except ParseError (Option Nat) :=
  match name with
  | none => .ok none
  | some nm =>
    match regs.action nm with
    | some a => .ok (some a)
    | none => .error (.unknownAction nm)

/-- `construct_states`: one state per frame letter; `frame |= 32768` for
bright is written as addition, valid because the letter index is below 32. -/
def construct_states (regs : Regs) (p : FrameParams) :
    Except ParseError (List state_t) := do
  let sprite ← sprite_for_name regs p.sprname
  let action ← action_pointer_for_name regs p.action
  .ok (p.frame.map (fun fr =>
    { sprite := sprite
      frame := ((fr.toLower.toNat : Int) - 97) + (if p.bright then 32768 else 0)
      tics := p.tics
      action := action
      nextstate := 0 }))

/-- The mutable fields of `_Parser`.  The Python sentinels
`previous_state_id = -1` and `loop_start_id = -1` are modelled as `none`. -/
structure PState where
  states : List state_t
  state_labels : List (List Char × Nat)
  previous_state_id : Option Nat
  loop_start_id : Option Nat
  saved_gotos : List (Nat × Nat × List Char × Nat)
  line_number : Nat
  lines : List (List Char)
deriving DecidableEq

/-- Blank-line popping of `more_lines`: drop leading lines that strip to
empty, bumping the line counter for each. -/
def popBlank : List (List Char) → Nat → (List (List Char) × Nat)
  | [], n => ([], n)
  | l :: rest, n =>
    if l.all isSpaceCh then popBlank rest (n + 1) else (l :: rest, n)

/-- `more_lines` as a state transformer (the boolean it returns in Python is
read off as `lines ≠ []` by callers). -/
def moreLines (ps : PState) : PState :=
  let p := popBlank ps.lines ps.line_number
  { ps with lines := p.1, line_number := p.2 }

/-- The matching step of `matches_regexp` against the current (first) line:
on success the line is replaced by the unconsumed remainder. -/
def tryMatchAux {α : Type} (m : List Char → Option (α × List Char))
    (ps1 : PState) : (Option α × PState) :=
  match ps1.lines with
  | [] => (none, ps1)
  | l :: rest =>
    match m l with
    | some (a, rem) => (some a, { ps1 with lines := rem :: rest })
    | none => (none, ps1)

/-- `matches_regexp`: `next_line()` pops blank lines, then the pattern is
matched against the current line. -/
def tryMatch {α : Type} (m : List Char → Option (α × List Char)) (ps : PState) :
    (Option α × PState) :=
  tryMatchAux m (moreLines ps)

/-- Association-list lookup for the label dictionary. -/
def lookupLabel (m : List (List Char × Nat)) (k : List Char) : Option Nat :=
  (m.find? (fun p => decide (p.1 = k))).map (fun p => p.2)

/-- `DECORATE_NAMES`: DSL label spelling (lowercase) to Doom field name. -/
def DECORATE_NAMES : List (List Char × List Char) :=
  [("see".data, "seestate".data),
   ("spawn".data, "spawnstate".data),
   ("pain".data, "painstate".data),
   ("melee".data, "meleestate".data),
   ("missile".data, "missilestate".data),
   ("death".data, "deathstate".data),
   ("xdeath".data, "xdeathstate".data),
   ("raise".data, "raisestate".data),
   ("select".data, "upstate".data),
   ("deselect".data, "downstate".data),
   ("ready".data, "readystate".data),
   ("fire".data, "atkstate".data),
   ("flash".data, "flashstate".data)]

/-- `DECORATE_NAMES.get(name)`. -/
def decorate_lookup (k : List Char) : Option (List Char) :=
  (DECORATE_NAMES.find? (fun p => decide (p.1 = k))).map (fun p => p.2)

/-- `_Parser.set_label`: duplicate names are an error; the binding is added,
`loop_start_id` updated, and the Doom-equivalent alias added only when the
canonical name is not yet bound. -/
def set_label (ps : PState) (name : List Char) (sid : Nat) :
    Except ParseError PState :=
  match lookupLabel ps.state_labels name with
  | some _ => .error (.labelDup ps.line_number name)
  | none =>
    let m1 := ps.state_labels ++ [(name, sid)]
    let m2 :=
      match decorate_lookup (name.map Char.toLower) with
      | some dn =>
        match lookupLabel m1 dn with
        | none => m1 ++ [(dn, sid)]
        | some _ => m1
      | none => m1
    .ok { ps with state_labels := m2, loop_start_id := some sid }

/-- `alloc_new_state` followed by `copy_from`: appending `state_t()` and then
overwriting every field is appending the constructed state; then the chain
link from the previous state is written and `previous_state_id` advances. -/
def alloc_and_copy (ps : PState) (st : state_t) : Except ParseError PState :=
  let sid := ps.states.length
  let sts := ps.states ++ [st]
  match ps.previous_state_id with
  | none => .ok { ps with states := sts, previous_state_id := some sid }
  | some p =>
    match sts[p]? with
    | none => .error .indexErr
    | some prev =>
      .ok { ps with
              states := sts.set p { prev with nextstate := (sid : Int) }
              previous_state_id := some sid }

/-- Bind every pending label of the block to the given state id. -/
def bind_labels : PState → List (List Char) → Nat → Except ParseError PState
  | ps, [], _ => .ok ps
  | ps, l :: ls, sid => do
    let ps1 ← set_label ps l sid
    bind_labels ps1 ls sid

/-- The body of the `for state in construct_states(...)` loop: the pending
labels are bound to the first expanded state only. -/
def add_states : PState → List (List Char) → List state_t → Except ParseError PState
  | ps, _, [] => .ok ps
  | ps, labels, st :: rest => do
    let sid := ps.states.length
    let ps1 ← alloc_and_copy ps st
    let ps2 ← bind_labels ps1 labels sid
    add_states ps2 [] rest

/-- `parse_labels`: consume any run of `IDENT :` headers, collecting the
distinct names (Python stores them in a set; here: textual order, first
occurrence kept, which is one deterministic refinement of set order). -/
def parse_labels : Nat → PState → Except ParseError (List (List Char) × PState)
  | 0, _ => .error .fuelOut
  | fuel + 1, ps =>
    match tryMatch matchLabel ps with
    | (none, ps1) => .ok ([], ps1)
    | (some lbl, ps1) => do
      let r ← parse_labels fuel ps1
      .ok ((if lbl ∈ r.1 then r.1 else lbl :: r.1), r.2)

/-- `parse_frame_def`: labels are consumed first; when no frame definition
follows, the collected labels are dropped and `False` is returned. -/
def parse_frame_def (regs : Regs) (fuel : Nat) (ps : PState) :
    Except ParseError (Bool × PState) := do
  let (labels, ps1) ← parse_labels fuel ps
  match tryMatch matchFrame ps1 with
  | (none, ps2) => .ok (false, ps2)
  | (some prm, ps2) => do
    let sts ← construct_states regs prm
    let ps3 ← add_states ps2 labels sts
    .ok (true, ps3)

/-- `parse_loop` (the `Loop` statement). -/
def parse_loop (ps : PState) : Except ParseError (Bool × PState) :=
  match tryMatch matchLoop ps with
  | (none, ps1) => .ok (false, ps1)
  | (some _, ps1) =>
    match ps1.previous_state_id with
    | none => .error (.loopNoState ps1.line_number)
    | some p =>
      match ps1.loop_start_id with
      | none => .error (.loopNoLabel ps1.line_number)
      | some ls =>
        match ps1.states[p]? with
        | none => .error .indexErr
        | some s =>
          .ok (true, { ps1 with
                         states := ps1.states.set p { s with nextstate := (ls : Int) }
                         previous_state_id := none
                         loop_start_id := none })

/-- `parse_stop`. -/
def parse_stop (ps : PState) : Except ParseError (Bool × PState) :=
  match tryMatch matchStop ps with
  | (none, ps1) => .ok (false, ps1)
  | (some _, ps1) =>
    match ps1.previous_state_id with
    | none => .error (.stopNoState ps1.line_number)
    | some p =>
      match ps1.states[p]? with
      | none => .error .indexErr
      | some s =>
        .ok (true, { ps1 with
                       states := ps1.states.set p { s with tics := -1, nextstate := 0 }
                       previous_state_id := none
                       loop_start_id := none })

/-- `parse_goto`: the goto is deferred (line number, origin state, label,
offset) and the current run ends. -/
def parse_goto (ps : PState) : Except ParseError (Bool × PState) :=
  match tryMatch matchGoto ps with
  | (none, ps1) => .ok (false, ps1)
  | (some lo, ps1) =>
    match ps1.previous_state_id with
    | none => .error (.gotoNoState ps1.line_number)
    | some p =>
      .ok (true, { ps1 with
                     saved_gotos := ps1.saved_gotos ++ [(ps1.line_number, p, lo.1, lo.2)]
                     previous_state_id := none
                     loop_start_id := none })

/-- Python list indexing: non-negative in range, or negative wrap-around. -/
def pyIdx (n : Nat) (i : Int) : Option Nat :=
  if 0 ≤ i then (if i < (n : Int) then some i.toNat else none)
  else (if -(n : Int) ≤ i then some (i + (n : Int)).toNat else none)

/-- `self.states[state_id]` with Python index semantics. -/
def pyGetState (states : List state_t) (i : Int) : Except ParseError state_t :=
  match pyIdx states.length i with
  | none => .error .indexErr
  | some k =>
    match states[k]? with
    | some s => .ok s
    | none => .error .indexErr

/-- The hop loop of `resolve_goto`: `offset` times, read the current state's
link; the value `-1` aborts with the offset-out-of-range error, any other
value (including 0) becomes the next state id. -/
def goto_hops (states : List state_t) (ln : Nat) (lbl : List Char) (off0 : Nat) :
    Nat → Int → Except ParseError Int
  | 0, sid => .ok sid
  | k + 1, sid => do
    let s ← pyGetState states sid
    if s.nextstate = -1 then .error (.gotoOffsetRange ln lbl off0)
    else goto_hops states ln lbl off0 k s.nextstate

/-- `_Parser.resolve_goto`. -/
def resolve_goto (states : List state_t) (labels : List (List Char × Nat))
    (ln : Nat) (lbl : List Char) (off : Nat) : Except ParseError Int :=
  match lookupLabel labels lbl with
  | none => .error (.gotoUnknownLabel ln lbl)
  | some sid => goto_hops states ln lbl off off (sid : Int)

/-- `_Parser.apply_gotos`: each saved goto is resolved against the current
(possibly already rewritten) states and written into its origin's link. -/
def apply_gotos (labels : List (List Char × Nat)) :
    List state_t → List (Nat × Nat × List Char × Nat) → Except ParseError (List state_t)
  | states, [] => .ok states
  | states, (ln, org, lbl, off) :: rest => do
    let r ← resolve_goto states labels ln lbl off
    match states[org]? with
    | none => .error .indexErr
    | some s => apply_gotos labels (states.set org { s with nextstate := r }) rest

/-- The `while self.more_lines()` loop of `_Parser.parse`, trying frame
definition, `Loop`, `Goto`, `Stop` in the source's order. -/
def parse_main (regs : Regs) : Nat → PState → Except ParseError PState
  | 0, _ => .error .fuelOut
  | fuel + 1, ps =>
    let ps0 := moreLines ps
    match ps0.lines with
    | [] => .ok ps0
    | _ :: _ => do
      let r1 ← parse_frame_def regs (fuel + 1) ps0
      if r1.1 then parse_main regs fuel r1.2 else do
        let r2 ← parse_loop r1.2
        if r2.1 then parse_main regs fuel r2.2 else do
          let r3 ← parse_goto r2.2
          if r3.1 then parse_main regs fuel r3.2 else do
            let r4 ← parse_stop r3.2
            if r4.1 then parse_main regs fuel r4.2
            else .error (.parseErr r4.2.line_number)

/-- Top-level `parse`: run the loop from the initial state (one NULL state,
line number 1), require the last run to be terminated, then apply the saved
gotos; the result is the states list and the label dictionary. -/
def parse (regs : Regs) (defstr : List Char) :
    Except ParseError (List state_t × List (List Char × Nat)) := do
  let lines := splitNL defstr
  let init : PState := ⟨[{}], [], none, none, [], 1, lines⟩
  let ps ← parse_main regs (defstr.length + lines.length + 2) init
  match ps.previous_state_id with
  | some _ => .error (.unterminated ps.line_number)
  | none => do
    let sts ← apply_gotos ps.state_labels ps.states ps.saved_gotos
    .ok (sts, ps.state_labels)

/-- Sample registries for the concrete evaluations.  Modelled from the spec:
the real tables live outside `src/`; the entries exercised by the spec's
examples (sprite `TROO`, actions `A_Look` and `A_Chase`) are present, with
arbitrary distinct tokens. -/
def sampleRegs : Regs where
  sprite := fun n => if n = "TROO".data then some 1 else none
  action := fun n =>
    if n = "A_Look".data then some 10
    else if n = "A_Chase".data then some 11
    else none

/-! ### State remapping (`_generate_old_to_new`, `remap_states`)

The destination table is a list of entries carrying the current struct value
and the value `original()` replays (constructor-argument replay is
deterministic, see the record model below, so the replayed value is stored
directly).  Python keeps the two allocation partitions in unordered sets and
pops arbitrary elements; here the partitions are lists in pool order and the
pop takes the head — one deterministic refinement of the set order, which
the spec itself notes is incidental. -/

/-- A slot of the destination table: current value and original snapshot. -/
structure TableEntry where
  cur : state_t
  orig : state_t
deriving DecidableEq

inductive RemapError where
  | capacity (needed have_ : Nat)
  | popEmpty
  | indexErr
deriving DecidableEq

/-- The categorisation loop: Python builds `alloc_action`/`alloc_non_action`
as sets from `alloc_states`, so duplicates collapse (`List.dedup` keeps one
occurrence); a pool index outside the table is Python's `IndexError`. -/
def categorize (new : List TableEntry) : List Nat → Except RemapError (List Nat × List Nat)
  | [] => .ok ([], [])
  | i :: rest =>
    match new[i]? with
    | none => .error .indexErr
    | some e => do
      let r ← categorize new rest
      if e.orig.action.isSome then .ok (i :: r.1, r.2) else .ok (r.1, i :: r.2)

/-- The allocation loop over source states 1..N in ascending order: pop from
the matching partition, falling back to the other only when the preferred
one is exhausted; every consumed index is also removed from the caller's
pool (`alloc_states.remove`).  Popping with both partitions empty is
Python's `KeyError` on `set.pop`. -/
def alloc_loop : List (Option Nat) → List Nat → List Nat → List Nat →
    Except RemapError (List Nat × List Nat)
  | [], _, _, pool => .ok ([], pool)
  | some _ :: rest, act, nonact, pool =>
    match act with
    | x :: act' => do
      let r ← alloc_loop rest act' nonact (pool.erase x)
      .ok (x :: r.1, r.2)
    | [] =>
      match nonact with
      | y :: non' => do
        let r ← alloc_loop rest [] non' (pool.erase y)
        .ok (y :: r.1, r.2)
      | [] => .error .popEmpty
  | none :: rest, act, nonact, pool =>
    match nonact with
    | y :: non' => do
      let r ← alloc_loop rest act non' (pool.erase y)
      .ok (y :: r.1, r.2)
    | [] =>
      match act with
      | x :: act' => do
        let r ← alloc_loop rest act' [] (pool.erase x)
        .ok (x :: r.1, r.2)
      | [] => .error .popEmpty

/-- `_generate_old_to_new`: capacity check against the raw pool length, then
categorise the (deduplicated) pool and allocate; the returned map has entry
0 fixed at 0 and the consumed pool is returned alongside. -/
def generate_old_to_new (old : List state_t) (new : List TableEntry)
    (alloc : List Nat) : Except RemapError (List Nat × List Nat) :=
  if ((old.length : Int) - 1 > (alloc.length : Int)) then
    .error (.capacity (old.length - 1) alloc.length)
  else do
    let parts ← categorize new alloc.dedup
    let r ← alloc_loop ((old.drop 1).map (fun s => s.action)) parts.1 parts.2 alloc
    match old with
    | [] => .ok ([], r.2)
    | _ :: _ => .ok (0 :: r.1, r.2)

/-- The copy loop of `remap_states` over source ids 1..N: `copy_from` then
the link rewrite — a link of `-1` is left untouched, any other link is
replaced through the old-to-new map with Python list-index semantics. -/
def remap_copy (old : List state_t) (o2n : List Nat) :
    List TableEntry → List Nat → Except RemapError (List TableEntry)
  | new, [] => .ok new
  | new, i :: rest =>
    match old[i]? with
    | none => .error .indexErr
    | some os =>
      match o2n[i]? with
      | none => .error .indexErr
      | some ni =>
        match new[ni]? with
        | none => .error .indexErr
        | some e =>
          if os.nextstate = -1 then
            remap_copy old o2n (new.set ni { e with cur := os }) rest
          else
            match pyIdx o2n.length os.nextstate with
            | none => .error .indexErr
            | some k =>
              match o2n[k]? with
              | none => .error .indexErr
              | some m =>
                remap_copy old o2n
                  (new.set ni { e with cur := { os with nextstate := (m : Int) } }) rest

/-- `remap_states`: build the map, then copy states 1..N across, rewriting
links; returns the new table, the old-to-new map and what is left of the
caller's pool. -/
def remap_states (old : List state_t) (new : List TableEntry) (alloc : List Nat) :
    Except RemapError (List TableEntry × List Nat × List Nat) := do
  let g ← generate_old_to_new old new alloc
  let new' ← remap_copy old g.1 new ((List.range old.length).drop 1)
  .ok (new', g.1, g.2)

end DEH

/-! ### The record model (`c.py`)

`Struct` is modelled generically over a value type `V` with decidable
equality (field values in the repository are integers, `None`, and opaque
registry tokens).  A record type is an ordered list of field descriptors
(field name, optional dehacked name); `StructField`'s global counter fixes
exactly the declaration order.  An instance holds one current value per
field plus the verbatim constructor arguments (`_original_values`). -/

namespace DEH

inductive CErr where
  | tooManyArgs
  | noField (name : String)
  | attrErr (name : String)
deriving DecidableEq

/-- A record type: dehacked type name plus ordered field descriptors. -/
structure CStructType where
  dehackedName : String
  fields : List (String × Option String)

/-- `field_names()`. -/
def field_names (t : CStructType) : List String := t.fields.map (fun p => p.1)

/-- An instance: current field values (aligned with `t.fields`) and the
captured constructor arguments. -/
structure CInstance (V : Type) where
  fields : List V
  orig_args : List V × List (String × V)
deriving DecidableEq

/-- Positional assignment: overwrite the first `args.length` fields. -/
def apply_positional {V : Type} (cur : List V) (args : List V) : List V :=
  args ++ cur.drop args.length

/-- Keyword assignment, in dictionary order; an unknown name is the
`"%r has no field %r"` `ValueError`. -/
def apply_kwargs {V : Type} (names : List String) :
    List V → List (String × V) → Except CErr (List V)
  | cur, [] => .ok cur
  | cur, (k, v) :: rest =>
    match names.findIdx? (fun n => decide (n = k)) with
    | none => .error (.noField k)
    | some i => apply_kwargs names (cur.set i v) rest

/-- `set_values`: too many positional values is the
`"%r only has %d fields"` `ValueError`. -/
def set_values {V : Type} (t : CStructType) (cur : List V) (args : List V)
    (kwargs : List (String × V)) : Except CErr (List V) :=
  if args.length > t.fields.length then .error .tooManyArgs
  else apply_kwargs (field_names t) (apply_positional cur args) kwargs

/-- `Struct.__init__`: zero-fill every field, apply the arguments, and
capture them for `original()`. -/
def struct_init {V : Type} (zero : V) (t : CStructType) (args : List V)
    (kwargs : List (String × V)) : Except CErr (CInstance V) := do
  let f ← set_values t (List.replicate t.fields.length zero) args kwargs
  .ok ⟨f, (args, kwargs)⟩

/-- `original()`: replay the captured constructor arguments. -/
def original {V : Type} (zero : V) (t : CStructType) (inst : CInstance V) :
    Except CErr (CInstance V) :=
  struct_init zero t inst.orig_args.1 inst.orig_args.2

/-- `getattr(self, field)` for a declared field. -/
def struct_getattr {V : Type} (t : CStructType) (inst : CInstance V)
    (f : String) : Option V := do
  let i ← (field_names t).findIdx? (fun n => decide (n = f))
  inst.fields[i]?

/-- `diff(other)`: field names, in declaration order, whose values differ. -/
def diff_fields {V : Type} [DecidableEq V] (t : CStructType)
    (a b : CInstance V) : List String :=
  (field_names t).filter (fun f => decide (struct_getattr t a f ≠ struct_getattr t b f))

/-- `diff()` with no argument: diff against the replayed original. -/
def diff_orig {V : Type} [DecidableEq V] (zero : V) (t : CStructType)
    (inst : CInstance V) : Except CErr (List String) := do
  let o ← original zero t inst
  .ok (diff_fields t inst o)

/-- `field_deh_name`: `none` is Python's `AttributeError` (undeclared
field); `some d` is the descriptor's dehacked name. -/
def field_deh_name (t : CStructType) (f : String) : Option (Option String) :=
  (t.fields.find? (fun p => decide (p.1 = f))).map (fun p => p.2)

/-- `dehacked_header`. -/
def dehacked_header (t : CStructType) (array_index : Int) : String :=
  t.dehackedName ++ " " ++ toString array_index

/-- One candidate output line for a field: skipped (`none`) when the
dehacked name is Python-falsy — `None` or the empty string. -/
def deh_line {V : Type} (showV : V → String) (t : CStructType)
    (inst : CInstance V) (f : String) : Except CErr (Option String) :=
  match field_deh_name t f with
  | none => .error (.attrErr f)
  | some none => .ok none
  | some (some dn) =>
    if dn = "" then .ok none
    else
      match struct_getattr t inst f with
      | none => .error (.attrErr f)
      | some v => .ok (some (dn ++ " = " ++ showV v))

/-- The `results` accumulation loop of `dehacked_output`. -/
def collect_lines {V : Type} (showV : V → String) (t : CStructType)
    (inst : CInstance V) : List String → Except CErr (List String)
  | [] => .ok []
  | f :: rest => do
    let l ← deh_line showV t inst f
    let ls ← collect_lines showV t inst rest
    .ok (match l with | some s => s :: ls | none => ls)

/-- `dehacked_output`: empty when no field produced a line, else the header
joined with the lines. -/
def dehacked_output {V : Type} (showV : V → String) (t : CStructType)
    (inst : CInstance V) (fieldsReq : List String) (array_index : Int) :
    Except CErr String := do
  let ls ← collect_lines showV t inst fieldsReq
  if ls = [] then .ok ""
  else .ok (String.intercalate "\n" (dehacked_header t array_index :: ls))

/-- `sfxinfo_t` from `sounds.py`: the one `Struct` subclass of the sources,
with its declaration-ordered fields and dehacked names. -/
def sfxinfo_t : CStructType where
  dehackedName := "Sound"
  fields :=
    [("name", none),
     ("singularity", some "Zero/One"),
     ("priority", some "Value"),
     ("link", none),
     ("pitch", some "Zero 2"),
     ("volume", some "Zero 3"),
     ("data", some "Zero 4"),
     ("usefulness", some "Neg. One 1"),
     ("lumpnum", some "Neg. One 2")]

end DEH

deriving instance DecidableEq for Except

namespace DEH

/-- Spec-side counterpart of the allocation loop, stated from the claim's
words: source states are treated in ascending order; one carrying an action
draws from the action-capable set whenever it is non-empty, falling back to
a non-action slot only when it is empty, and symmetrically for action-less
states. -/
def GreedyAllocSpec : List (Option Nat) → List Nat → List Nat → List Nat → Prop
  | [], _, _, zs => zs = []
  | _ :: _, _, _, [] => False
  | a :: rest, act, nonact, z :: zs =>
    if a.isSome then
      if act = [] then z ∈ nonact ∧ GreedyAllocSpec rest act (nonact.erase z) zs
      else z ∈ act ∧ GreedyAllocSpec rest (act.erase z) nonact zs
    else
      if nonact = [] then z ∈ act ∧ GreedyAllocSpec rest (act.erase z) nonact zs
      else z ∈ nonact ∧ GreedyAllocSpec rest act (nonact.erase z) zs

/-- Whether a destination slot is action-capable: its original-snapshot
action is non-null (out-of-range slots are rejected by `categorize` before
this predicate matters). -/
def isCap (new : List TableEntry) (i : Nat) : Bool :=
  match new[i]? with
  | some e => e.orig.action.isSome
  | none => false

/-- Spec-side counterpart of one `dehacked_output` line, stated from the
amended claim: a requested field contributes a line exactly when its
external name is non-null and non-empty. -/
def spec_line {V : Type} (showV : V → String) (t : CStructType)
    (inst : CInstance V) (f : String) : Option String :=
  match field_deh_name t f with
  | some (some dn) =>
    if dn = "" then none
    else (struct_getattr t inst f).map (fun v => dn ++ " = " ++ showV v)
  | _ => none

/-- Pure link-chasing: the link read from state `i` (Python index
semantics), used to state what `offset` hops compute. -/
def chain_next (states : List state_t) (i : Int) : Option Int :=
  (pyIdx states.length i).bind (fun k => states[k]?.map (fun s => s.nextstate))

/-- `k`-fold link-chasing. -/
def chain_iter (states : List state_t) : Nat → Int → Option Int
  | 0, i => some i
  | k + 1, i => (chain_next states i).bind (chain_iter states k)

end DEH

/-! ## Theorems -/

namespace DEH

/-- Computation rule for the `Except` bind on a success value. -/
theorem exbind_ok {ε α β : Type} (a : α) (f : α → Except ε β) :
    (Except.ok a : Except ε α) >>= f = f a := rfl

/-- Computation rule for the `Except` bind on an error value. -/
theorem exbind_error {ε α β : Type} (e : ε) (f : α → Except ε β) :
    (Except.error e : Except ε α) >>= f = Except.error e := rfl

/-- C7: for every record type and every constructor-argument list accepted
by construction, `diff(original())` immediately after construction is
empty — replaying the captured constructor arguments reproduces a record
whose every field equals the freshly constructed one. -/
theorem c7_diff_of_original_empty {V : Type} [DecidableEq V] (zero : V)
    (t : CStructType) (args : List V) (kwargs : List (String × V))
    (inst : CInstance V) (h : struct_init zero t args kwargs = .ok inst) :
    diff_orig zero t inst = .ok [] := by
  have hargs : inst.orig_args = (args, kwargs) := by
    unfold struct_init at h
    cases hsv : set_values t (List.replicate t.fields.length zero) args kwargs with
    | error e => rw [hsv] at h; exact absurd h (by simp [exbind_error])
    | ok f =>
      rw [hsv, exbind_ok, Except.ok.injEq] at h
      rw [← h]
  have horig : original zero t inst = .ok inst := by
    unfold original
    rw [hargs]
    exact h
  unfold diff_orig
  rw [horig, exbind_ok, Except.ok.injEq]
  unfold diff_fields
  apply List.filter_eq_nil_iff.mpr
  intro a _
  simp

/-- C7 witness: a concrete `sfxinfo_t` construction with positional and
keyword arguments whose diff against its replayed original is empty. -/
theorem c7_witness :
    diff_orig (0 : Int) sfxinfo_t
      ⟨[3, 7, 0, 0, 0, 9, 0, 0, 0], ([3, 7], [("volume", 9)])⟩ = .ok [] :=
  c7_diff_of_original_empty 0 sfxinfo_t [3, 7] [("volume", 9)]
    ⟨[3, 7, 0, 0, 0, 9, 0, 0, 0], ([3, 7], [("volume", 9)])⟩ (by decide)

/-- The `results` loop of `dehacked_output` collects exactly the spec-side
lines when every requested field is declared and present. -/
theorem collect_lines_eq {V : Type} (showV : V → String) (t : CStructType)
    (inst : CInstance V) : ∀ fs : List String,
    (∀ f ∈ fs, (field_deh_name t f).isSome ∧ (struct_getattr t inst f).isSome) →
    collect_lines showV t inst fs = .ok (fs.filterMap (spec_line showV t inst))
  | [], _ => rfl
  | f :: rest, h => by
    obtain ⟨h1, h2⟩ := h f (List.mem_cons_self f rest)
    have hrest := collect_lines_eq showV t inst rest
      (fun g hg => h g (List.mem_cons_of_mem f hg))
    cases hd : field_deh_name t f with
    | none => rw [hd] at h1; exact absurd h1 (by simp)
    | some odn =>
      cases odn with
      | none =>
        simp [collect_lines, deh_line, hd, hrest, exbind_ok, spec_line]
      | some dn =>
        by_cases hdn : dn = ""
        · simp [collect_lines, deh_line, hd, hdn, hrest, exbind_ok, spec_line]
        · cases hg : struct_getattr t inst f with
          | none => rw [hg] at h2; exact absurd h2 (by simp)
          | some v =>
            simp [collect_lines, deh_line, hd, hdn, hg, hrest, exbind_ok, spec_line]

/-- C8 (amended): `render` yields the header line followed by one
`"<external-name> = <value>"` line per requested field whose external name
is non-null and non-empty, in the given order, skipping null-or-empty
names; zero lines give the entirely empty output. -/
theorem c8_render_structure {V : Type} (showV : V → String) (t : CStructType)
    (inst : CInstance V) (fieldsReq : List String) (array_index : Int)
    (h : ∀ f ∈ fieldsReq,
      (field_deh_name t f).isSome ∧ (struct_getattr t inst f).isSome) :
    dehacked_output showV t inst fieldsReq array_index =
      .ok (if fieldsReq.filterMap (spec_line showV t inst) = [] then ""
           else String.intercalate "\n"
             (dehacked_header t array_index ::
               fieldsReq.filterMap (spec_line showV t inst))) := by
  have hc := collect_lines_eq showV t inst fieldsReq h
  unfold dehacked_output
  rw [hc, exbind_ok]
  split
  · simp [*]
  · simp [*]

/-- `categorize` returns the two pool-ordered partitions of its input by
the action-capability of the slot's original snapshot. -/
theorem categorize_ok (new : List TableEntry) :
    ∀ (l : List Nat) (parts : List Nat × List Nat), categorize new l = .ok parts →
    parts.1 = l.filter (isCap new) ∧ parts.2 = l.filter (fun i => !(isCap new i)) := by
  intro l
  induction l with
  | nil =>
    intro parts h
    simp only [categorize, Except.ok.injEq] at h
    simp [← h]
  | cons i rest ih =>
    intro parts h
    cases hg : new[i]? with
    | none => simp [categorize, hg] at h
    | some e =>
      cases hc : categorize new rest with
      | error e2 => simp [categorize, hg, hc, exbind_error] at h
      | ok r =>
        simp only [categorize, hg, hc, exbind_ok] at h
        obtain ⟨h1, h2⟩ := ih r hc
        have hcap : isCap new i = e.orig.action.isSome := by simp [isCap, hg]
        by_cases ha : e.orig.action.isSome
        · rw [if_pos ha, Except.ok.injEq] at h
          rw [← h]
          simp [List.filter_cons, hcap, ha, h1, h2]
        · rw [if_neg ha, Except.ok.injEq] at h
          rw [← h]
          simp only [Bool.not_eq_true] at ha
          simp [List.filter_cons, hcap, ha, h1, h2]

/-- `categorize` succeeds when every pool index is inside the table. -/
theorem categorize_ok_of_bounds (new : List TableEntry) :
    ∀ (l : List Nat), (∀ i ∈ l, i < new.length) →
    categorize new l =
      .ok (l.filter (isCap new), l.filter (fun i => !(isCap new i))) := by
  intro l
  induction l with
  | nil => intro _; rfl
  | cons i rest ih =>
    intro hb
    have hi : i < new.length := hb i (List.mem_cons_self i rest)
    have hg : ∃ e, new[i]? = some e := by
      rw [List.getElem?_eq_getElem hi]
      exact ⟨_, rfl⟩
    obtain ⟨e, hg⟩ := hg
    have hrest := ih (fun j hj => hb j (List.mem_cons_of_mem i hj))
    have hcap : isCap new i = e.orig.action.isSome := by simp [isCap, hg]
    by_cases ha : e.orig.action.isSome
    · simp [categorize, hg, hrest, exbind_ok, List.filter_cons, hcap, ha]
    · simp only [Bool.not_eq_true] at ha
      simp [categorize, hg, hrest, exbind_ok, List.filter_cons, hcap, ha]

/-- A successful allocation run satisfies the claim-side greedy rule. -/
theorem alloc_loop_greedy :
    ∀ (acts : List (Option Nat)) (act nonact pool zs pool' : List Nat),
    alloc_loop acts act nonact pool = .ok (zs, pool') →
    GreedyAllocSpec acts act nonact zs := by
  intro acts
  induction acts with
  | nil =>
    intro act nonact pool zs pool' h
    simp only [alloc_loop, Except.ok.injEq, Prod.mk.injEq] at h
    simp [GreedyAllocSpec, ← h.1]
  | cons a rest ih =>
    intro act nonact pool zs pool' h
    cases a with
    | some v =>
      cases act with
      | cons x act' =>
        have h2 : (alloc_loop rest act' nonact (pool.erase x) >>=
            fun r => Except.ok (x :: r.1, r.2)) = Except.ok (zs, pool') := h
        cases hr : alloc_loop rest act' nonact (pool.erase x) with
        | error e => rw [hr, exbind_error] at h2; exact absurd h2 (by simp)
        | ok r =>
          rw [hr, exbind_ok, Except.ok.injEq, Prod.mk.injEq] at h2
          rw [← h2.1]
          have hG := ih act' nonact (pool.erase x) r.1 r.2 (by rw [hr])
          simp [GreedyAllocSpec, List.erase_cons_head, hG]
      | nil =>
        cases nonact with
        | cons y non' =>
          have h2 : (alloc_loop rest [] non' (pool.erase y) >>=
              fun r => Except.ok (y :: r.1, r.2)) = Except.ok (zs, pool') := h
          cases hr : alloc_loop rest [] non' (pool.erase y) with
          | error e => rw [hr, exbind_error] at h2; exact absurd h2 (by simp)
          | ok r =>
            rw [hr, exbind_ok, Except.ok.injEq, Prod.mk.injEq] at h2
            rw [← h2.1]
            have hG := ih [] non' (pool.erase y) r.1 r.2 (by rw [hr])
            simp [GreedyAllocSpec, List.erase_cons_head, hG]
        | nil => exact absurd h (by simp [alloc_loop])
    | none =>
      cases nonact with
      | cons y non' =>
        have h2 : (alloc_loop rest act non' (pool.erase y) >>=
            fun r => Except.ok (y :: r.1, r.2)) = Except.ok (zs, pool') := h
        cases hr : alloc_loop rest act non' (pool.erase y) with
        | error e => rw [hr, exbind_error] at h2; exact absurd h2 (by simp)
        | ok r =>
          rw [hr, exbind_ok, Except.ok.injEq, Prod.mk.injEq] at h2
          rw [← h2.1]
          have hG := ih act non' (pool.erase y) r.1 r.2 (by rw [hr])
          simp [GreedyAllocSpec, List.erase_cons_head, hG]
      | nil =>
        cases act with
        | cons x act' =>
          have h2 : (alloc_loop rest act' [] (pool.erase x) >>=
              fun r => Except.ok (x :: r.1, r.2)) = Except.ok (zs, pool') := h
          cases hr : alloc_loop rest act' [] (pool.erase x) with
          | error e => rw [hr, exbind_error] at h2; exact absurd h2 (by simp)
          | ok r =>
            rw [hr, exbind_ok, Except.ok.injEq, Prod.mk.injEq] at h2
            rw [← h2.1]
            have hG := ih act' [] (pool.erase x) r.1 r.2 (by rw [hr])
            simp [GreedyAllocSpec, List.erase_cons_head, hG]
        | nil => exact absurd h (by simp [alloc_loop])

/-- Erasing a pool element commutes with excluding it from the kept set. -/
theorem filter_erase_cons (pool : List Nat) (x : Nat) (zs : List Nat)
    (hnd : pool.Nodup) :
    (pool.erase x).filter (fun y => decide (y ∉ zs)) =
      pool.filter (fun y => decide (y ∉ x :: zs)) := by
  rw [List.Nodup.erase_eq_filter hnd, List.filter_filter]
  apply List.filter_congr
  intro y _
  by_cases h1 : y = x <;> by_cases h2 : y ∈ zs <;> simp [h1, h2]

/-- A successful allocation run exists whenever the two partitions form the
pool and the pool is large enough; it consumes exactly the assigned indices
and nothing else. -/
theorem alloc_loop_spec :
    ∀ (acts : List (Option Nat)) (act nonact pool : List Nat),
    pool.Nodup → (act ++ nonact).Perm pool → acts.length ≤ pool.length →
    ∃ zs pool', alloc_loop acts act nonact pool = .ok (zs, pool') ∧
      zs.length = acts.length ∧
      pool' = pool.filter (fun y => decide (y ∉ zs)) ∧
      pool'.length + acts.length = pool.length := by
  intro acts
  induction acts with
  | nil =>
    intro act nonact pool hnd hperm hlen
    refine ⟨[], pool, rfl, rfl, ?_, by simp⟩
    simp
  | cons a rest ih =>
    intro act nonact pool hnd hperm hlen
    have key : ∀ (x : Nat) (act' nonact' : List Nat),
        ((act' ++ nonact').Perm (pool.erase x)) → x ∈ pool →
        (∀ r, alloc_loop rest act' nonact' (pool.erase x) = r →
          alloc_loop (a :: rest) act nonact pool =
            r >>= fun q => .ok (x :: q.1, q.2)) →
        ∃ zs pool', alloc_loop (a :: rest) act nonact pool = .ok (zs, pool') ∧
          zs.length = rest.length + 1 ∧
          pool' = pool.filter (fun y => decide (y ∉ zs)) ∧
          pool'.length + (rest.length + 1) = pool.length := by
      intro x act' nonact' hperm' hx hstep
      simp only [List.length_cons] at hlen
      have hpos : 0 < pool.length := List.length_pos.mpr (List.ne_nil_of_mem hx)
      have hlen' : rest.length ≤ (pool.erase x).length := by
        rw [List.length_erase_of_mem hx]
        omega
      obtain ⟨zs', pool'', heq, hl, hfil, hcnt⟩ :=
        ih act' nonact' (pool.erase x) (hnd.erase x) hperm' hlen'
      refine ⟨x :: zs', pool'', ?_, by simp [hl], ?_, ?_⟩
      · rw [hstep _ heq, exbind_ok]
      · rw [hfil, filter_erase_cons pool x zs' hnd]
      · rw [List.length_erase_of_mem hx] at hcnt
        omega
    cases a with
    | some v =>
      cases act with
      | cons x act' =>
        have hx : x ∈ pool :=
          hperm.subset (List.mem_append_left _ (List.mem_cons_self x act'))
        have hperm' : (act' ++ nonact).Perm (pool.erase x) := by
          have h1 := hperm.erase x
          rwa [List.cons_append, List.erase_cons_head] at h1
        exact key x act' nonact hperm' hx (fun r hr => by subst hr; rfl)
      | nil =>
        cases nonact with
        | cons y non' =>
          have hy : y ∈ pool :=
            hperm.subset (List.mem_append_right _ (List.mem_cons_self y non'))
          have hperm' : (([] : List Nat) ++ non').Perm (pool.erase y) := by
            have h1 := hperm.erase y
            rwa [List.nil_append, List.erase_cons_head, ← List.nil_append non'] at h1
          exact key y [] non' hperm' hy (fun r hr => by subst hr; rfl)
        | nil =>
          exfalso
          simp only [List.length_cons] at hlen
          have h0 := hperm.length_eq
          simp at h0
          omega
    | none =>
      cases nonact with
      | cons y non' =>
        have hy : y ∈ pool :=
          hperm.subset (List.mem_append_right _ (List.mem_cons_self y non'))
        have hnd2 : (act ++ y :: non').Nodup := hperm.nodup_iff.mpr hnd
        have hya : y ∉ act := fun hmem =>
          ((List.nodup_append.mp hnd2).2.2 hmem) (List.mem_cons_self y non')
        have hperm' : (act ++ non').Perm (pool.erase y) := by
          have h1 := hperm.erase y
          rwa [List.erase_append_right (y :: non') hya, List.erase_cons_head] at h1
        exact key y act non' hperm' hy (fun r hr => by subst hr; rfl)
      | nil =>
        cases act with
        | cons x act' =>
          have hx : x ∈ pool :=
            hperm.subset (List.mem_append_left _ (List.mem_cons_self x act'))
          have hperm' : (act' ++ ([] : List Nat)).Perm (pool.erase x) := by
            have h1 := hperm.erase x
            rwa [List.cons_append, List.erase_cons_head] at h1
          exact key x act' [] hperm' hx (fun r hr => by subst hr; rfl)
        | nil =>
          exfalso
          simp only [List.length_cons] at hlen
          have h0 := hperm.length_eq
          simp at h0
          omega

/-- Successful `_generate_old_to_new` runs decompose into a passed capacity
check, a successful categorisation, and a successful allocation whose
assignment list is the returned map without its fixed 0 entry. -/
theorem generate_ok_cases (old : List state_t) (new : List TableEntry)
    (alloc : List Nat) (o2n pool' : List Nat)
    (hg : generate_old_to_new old new alloc = .ok (o2n, pool')) :
    ¬((old.length : Int) - 1 > (alloc.length : Int)) ∧
    ∃ parts, categorize new alloc.dedup = .ok parts ∧
      alloc_loop ((old.drop 1).map (fun s => s.action)) parts.1 parts.2 alloc =
        .ok (o2n.drop 1, pool') := by
  unfold generate_old_to_new at hg
  by_cases hcap : ((old.length : Int) - 1 > (alloc.length : Int))
  · rw [if_pos hcap] at hg
    exact absurd hg (by simp)
  · rw [if_neg hcap] at hg
    refine ⟨hcap, ?_⟩
    cases hc : categorize new alloc.dedup with
    | error e => rw [hc, exbind_error] at hg; exact absurd hg (by simp)
    | ok parts =>
      rw [hc, exbind_ok] at hg
      cases ha : alloc_loop ((old.drop 1).map (fun s => s.action)) parts.1 parts.2 alloc with
      | error e => rw [ha, exbind_error] at hg; exact absurd hg (by simp)
      | ok r =>
        rw [ha, exbind_ok] at hg
        cases old with
        | nil =>
          have hg2 : (Except.ok (([] : List Nat), r.2) :
              Except RemapError (List Nat × List Nat)) = .ok (o2n, pool') := hg
          simp only [Except.ok.injEq, Prod.mk.injEq] at hg2
          obtain ⟨h1, h2⟩ := hg2
          have hsimp : alloc_loop ((([] : List state_t).drop 1).map
              (fun s => s.action)) parts.1 parts.2 alloc =
              Except.ok (([] : List Nat), alloc) := rfl
          rw [hsimp] at ha
          simp only [Except.ok.injEq] at ha
          refine ⟨parts, rfl, ?_⟩
          rw [← h1, ← h2, ← ha]
          simp [alloc_loop]
        | cons o0 otl =>
          have hg2 : (Except.ok ((0 :: r.1 : List Nat), r.2) :
              Except RemapError (List Nat × List Nat)) = .ok (o2n, pool') := hg
          simp only [Except.ok.injEq, Prod.mk.injEq] at hg2
          obtain ⟨h1, h2⟩ := hg2
          refine ⟨parts, rfl, ?_⟩
          rw [← h1, ← h2]
          simpa using ha

/-- C3: source states are assigned destination slots in ascending source
order 1..N following the greedy partition preference — an action-carrying
source draws from the action-capable partition whenever it is non-empty and
falls back to a non-action slot only when it is empty, symmetrically for
action-less sources — and the capacity error is raised exactly when the
pool is smaller than the number of states to place. -/
theorem c3_greedy_partition (old : List state_t) (new : List TableEntry)
    (alloc : List Nat) (hnd : alloc.Nodup) (hb : ∀ i ∈ alloc, i < new.length) :
    (generate_old_to_new old new alloc =
        .error (.capacity (old.length - 1) alloc.length) ↔
      alloc.length < old.length - 1) ∧
    (∀ o2n pool', generate_old_to_new old new alloc = .ok (o2n, pool') →
      GreedyAllocSpec ((old.drop 1).map (fun s => s.action))
        (alloc.filter (isCap new)) (alloc.filter (fun i => !(isCap new i)))
        (o2n.drop 1)) := by
  constructor
  · constructor
    · intro herr
      by_contra hlt
      have hncap : ¬((old.length : Int) - 1 > (alloc.length : Int)) := by omega
      obtain ⟨zs, pool', heq, _, _, _⟩ :=
        alloc_loop_spec ((old.drop 1).map (fun s => s.action))
          (alloc.filter (isCap new)) (alloc.filter (fun i => !(isCap new i))) alloc
          hnd (List.filter_append_perm (isCap new) alloc)
          (by simp only [List.length_map, List.length_drop]; omega)
      have hgen : generate_old_to_new old new alloc =
          (match old with
           | [] => .ok ([], pool')
           | _ :: _ => .ok (0 :: zs, pool')) := by
        unfold generate_old_to_new
        rw [if_neg hncap, List.dedup_eq_self.mpr hnd,
          categorize_ok_of_bounds new alloc hb, exbind_ok, heq, exbind_ok]
      rw [hgen] at herr
      cases old with
      | nil => exact absurd herr (by simp)
      | cons o0 otl => exact absurd herr (by simp)
    · intro hlt
      unfold generate_old_to_new
      rw [if_pos (by omega)]
  · intro o2n pool' hg
    obtain ⟨hncap, parts, hc, ha⟩ := generate_ok_cases old new alloc o2n pool' hg
    rw [List.dedup_eq_self.mpr hnd] at hc
    obtain ⟨hp1, hp2⟩ := categorize_ok new alloc parts hc
    rw [hp1, hp2] at ha
    exact alloc_loop_greedy _ _ _ alloc (o2n.drop 1) pool' ha

/-- C3 witness: three pool slots, one action-capable; the action-carrying
source takes the capable slot, the action-less one a non-action slot. -/
theorem c3_witness :
    GreedyAllocSpec [some 7, none] [1] [2, 3] [1, 2] := by
  have := (c3_greedy_partition
      [{}, { action := some 7, tics := 1 }, { tics := 2 }]
      [⟨{}, {}⟩, ⟨{}, { action := some 1 }⟩, ⟨{}, {}⟩, ⟨{}, {}⟩]
      [1, 2, 3] (by decide) (by decide)).2 [0, 1, 2] [3] (by decide)
  simpa using this

/-- C6: the pool left by a successful `remap_states` call is exactly the
original pool minus every assigned slot — nothing else is removed — and its
length drops by the number of placed source states. -/
theorem c6_pool_consumption (old : List state_t) (new : List TableEntry)
    (alloc : List Nat) (hnd : alloc.Nodup) :
    ∀ new' o2n pool', remap_states old new alloc = .ok (new', o2n, pool') →
      pool' = alloc.filter (fun y => decide (y ∉ o2n.drop 1)) ∧
      pool'.length + (old.length - 1) = alloc.length := by
  intro new' o2n pool' h
  unfold remap_states at h
  cases hg : generate_old_to_new old new alloc with
  | error e => rw [hg, exbind_error] at h; exact absurd h (by simp)
  | ok g =>
    rw [hg, exbind_ok] at h
    cases hcp : remap_copy old g.1 new ((List.range old.length).drop 1) with
    | error e => rw [hcp, exbind_error] at h; exact absurd h (by simp)
    | ok nw =>
      rw [hcp, exbind_ok] at h
      simp only [Except.ok.injEq, Prod.mk.injEq] at h
      obtain ⟨-, ho, hp⟩ := h
      obtain ⟨hncap, parts, hc, ha⟩ :=
        generate_ok_cases old new alloc g.1 g.2 (hg.trans rfl)
      rw [List.dedup_eq_self.mpr hnd] at hc
      obtain ⟨hp1, hp2⟩ := categorize_ok new alloc parts hc
      rw [hp1, hp2] at ha
      obtain ⟨zs0, pool0, heq0, hl0, hfil0, hcnt0⟩ :=
        alloc_loop_spec ((old.drop 1).map (fun s => s.action))
          (alloc.filter (isCap new)) (alloc.filter (fun i => !(isCap new i))) alloc
          hnd (List.filter_append_perm (isCap new) alloc)
          (by
            simp only [List.length_map, List.length_drop]
            omega)
      rw [heq0] at ha
      simp only [Except.ok.injEq, Prod.mk.injEq] at ha
      obtain ⟨hz, hpl⟩ := ha
      constructor
      · rw [← hp, ← ho, ← hpl, hfil0, hz]
      · have hlen2 : ((old.drop 1).map (fun s : state_t => s.action)).length =
            old.length - 1 := by
          simp only [List.length_map, List.length_drop]
        rw [hlen2] at hcnt0
        rw [← hp, ← hpl]
        exact hcnt0

/-- C6 witness: a three-slot pool loses exactly the two assigned slots. -/
theorem c6_witness :
    ([3] : List Nat) =
      [1, 2, 3].filter (fun y => decide (y ∉ ([0, 1, 2] : List Nat).drop 1)) ∧
    ([3] : List Nat).length +
      (([{}, { action := some 7, tics := 1 }, { tics := 2 }] :
        List state_t).length - 1) = ([1, 2, 3] : List Nat).length :=
  c6_pool_consumption
    [{}, { action := some 7, tics := 1 }, { tics := 2 }]
    [⟨{}, {}⟩, ⟨{}, { action := some 1 }⟩, ⟨{}, {}⟩, ⟨{}, {}⟩]
    [1, 2, 3] (by decide)
    [⟨{}, {}⟩, ⟨{ action := some 7, tics := 1 }, { action := some 1 }⟩,
     ⟨{ tics := 2 }, {}⟩, ⟨{}, {}⟩]
    [0, 1, 2] [3] (by decide)

/-- The copy loop runs over source ids 1..N. -/
theorem mem_range_drop_one {n i : Nat} (h : i ∈ (List.range n).drop 1) : 1 ≤ i := by
  cases n with
  | zero => simp [List.range_zero] at h
  | succ k =>
    rw [List.range_succ_eq_map, List.drop_one, List.tail_cons] at h
    obtain ⟨j, -, hj⟩ := List.mem_map.mp h
    omega

/-- After the copy loop, any destination slot whose current value changed
holds a link that is not -1, provided every copied source state's link is
not -1 (each such link is rewritten to a non-negative map entry). -/
theorem remap_copy_written (old : List state_t) (o2n : List Nat) :
    ∀ (idxs : List Nat) (new new' : List TableEntry),
    (∀ i ∈ idxs, ∀ s, old[i]? = some s → s.nextstate ≠ -1) →
    remap_copy old o2n new idxs = .ok new' →
    ∀ (j : Nat) (e e' : TableEntry), new[j]? = some e → new'[j]? = some e' →
      e'.cur ≠ e.cur → e'.cur.nextstate ≠ -1 := by
  intro idxs
  induction idxs with
  | nil =>
    intro new new' hsrc h j e e' he he' hne
    simp only [remap_copy, Except.ok.injEq] at h
    rw [← h] at he'
    rw [he] at he'
    injection he' with hee
    exact absurd (by rw [← hee]) hne
  | cons i rest ih =>
    intro new new' hsrc h j e e' he he' hne
    cases ho : old[i]? with
    | none => simp [remap_copy, ho] at h
    | some os =>
      cases hn : o2n[i]? with
      | none => simp [remap_copy, ho, hn] at h
      | some ni =>
        cases hne2 : new[ni]? with
        | none => simp [remap_copy, ho, hn, hne2] at h
        | some e0 =>
          have hns : os.nextstate ≠ -1 :=
            hsrc i (List.mem_cons_self i rest) os ho
          cases hpy : pyIdx o2n.length os.nextstate with
          | none => simp [remap_copy, ho, hn, hne2, hns, hpy] at h
          | some k =>
            cases hk : o2n[k]? with
            | none => simp [remap_copy, ho, hn, hne2, hns, hpy, hk] at h
            | some m =>
              have h2 : remap_copy old o2n
                  (new.set ni { e0 with cur := { os with nextstate := (m : Int) } })
                  rest = .ok new' := by
                simpa [remap_copy, ho, hn, hne2, hns, hpy, hk] using h
              have hsrc' : ∀ i ∈ rest, ∀ s, old[i]? = some s → s.nextstate ≠ -1 :=
                fun i hi => hsrc i (List.mem_cons_of_mem _ hi)
              by_cases hj : j = ni
              · subst hj
                have hlt : j < new.length := (List.getElem?_eq_some.mp hne2).1
                have hw : (new.set j
                    { e0 with cur := { os with nextstate := (m : Int) } })[j]? =
                    some { e0 with cur := { os with nextstate := (m : Int) } } :=
                  List.getElem?_set_self (by simpa using hlt)
                by_cases hcur : e'.cur = { os with nextstate := (m : Int) }
                · rw [hcur]
                  intro hcontra
                  simp at hcontra
                · exact ih _ new' hsrc' h2 j _ e' hw he' (by simpa using hcur)
              · have hje : (new.set ni
                    { e0 with cur := { os with nextstate := (m : Int) } })[j]? =
                    new[j]? := List.getElem?_set_ne (fun hc => hj hc.symm)
                exact ih _ new' hsrc' h2 j e e' (by rw [hje, he]) he' hne

/-- C2 (amended): `remap_states` copies a source link of -1 through to the
destination unchanged rather than rejecting it; consequently, whenever no
source state carries an unresolved -1 link, no destination slot written by
remap holds -1 (every copied link is rewritten to a non-negative map
entry). -/
theorem c2_no_unresolved_written (old : List state_t) (new : List TableEntry)
    (alloc : List Nat)
    (hsrc : ∀ i s, 1 ≤ i → old[i]? = some s → s.nextstate ≠ -1) :
    ∀ new' o2n pool', remap_states old new alloc = .ok (new', o2n, pool') →
    ∀ (j : Nat) (e e' : TableEntry), new[j]? = some e → new'[j]? = some e' →
      e'.cur ≠ e.cur → e'.cur.nextstate ≠ -1 := by
  intro new' o2n pool' h j e e' he he' hne
  unfold remap_states at h
  cases hg : generate_old_to_new old new alloc with
  | error er => rw [hg, exbind_error] at h; exact absurd h (by simp)
  | ok g =>
    rw [hg, exbind_ok] at h
    cases hcp : remap_copy old g.1 new ((List.range old.length).drop 1) with
    | error er => rw [hcp, exbind_error] at h; exact absurd h (by simp)
    | ok nw =>
      rw [hcp, exbind_ok] at h
      simp only [Except.ok.injEq, Prod.mk.injEq] at h
      obtain ⟨hnw, -, -⟩ := h
      rw [hnw] at hcp
      exact remap_copy_written old g.1 ((List.range old.length).drop 1) new new'
        (fun i hi s hs => hsrc i s (mem_range_drop_one hi) hs) hcp j e e' he he' hne

/-- C2 counterexample: a source state with the unresolved link -1 is copied
through by `remap_states` without any error — the call succeeds and the
written destination slot holds link -1, contradicting both the rejection
and the -1-free destination the claim asserts. -/
theorem c2_counterexample :
    remap_states [{}, { tics := 1, nextstate := -1 }] [⟨{}, {}⟩, ⟨{}, {}⟩] [1] =
      .ok ([⟨{}, {}⟩, ⟨{ tics := 1, nextstate := -1 }, {}⟩], [0, 1], []) ∧
    (([⟨{}, {}⟩, ⟨{ tics := 1, nextstate := -1 }, {}⟩] :
      List TableEntry)[1]?).map (fun en => en.cur.nextstate) = some (-1) := by
  exact ⟨by decide, by decide⟩

/-- C2 witness: a remap of a -1-free source writes only -1-free slots. -/
theorem c2_witness :
    (⟨{ tics := 1 }, {}⟩ : TableEntry).cur.nextstate ≠ -1 :=
  c2_no_unresolved_written [{}, { tics := 1 }] [⟨{}, {}⟩, ⟨{}, {}⟩] [1]
    (by
      intro i s h1 hs
      rcases i with _ | (_ | n)
      · omega
      · have hv : ({ tics := 1 } : state_t) = s := by simpa using hs
        rw [← hv]
        decide
      · simp at hs)
    [⟨{}, {}⟩, ⟨{ tics := 1 }, {}⟩] [0, 1] [] (by decide)
    1 ⟨{}, {}⟩ ⟨{ tics := 1 }, {}⟩ (by decide) (by decide) (by decide)

/-- Looking a key up in an extended label dictionary: an earlier binding
always wins; a fresh key finds the appended pair. -/
theorem lookupLabel_append_one (m : List (List Char × Nat)) (k k' : List Char)
    (v : Nat) :
    lookupLabel (m ++ [(k', v)]) k =
      (match lookupLabel m k with
       | some w => some w
       | none => if k' = k then some v else none) := by
  induction m with
  | nil =>
    by_cases hp : k' = k
    · simp [lookupLabel, List.find?, hp]
    · simp [lookupLabel, List.find?, hp]
  | cons p rest ih =>
    by_cases hp : p.1 = k
    · simp [lookupLabel, List.find?, hp]
    · simp only [lookupLabel, List.cons_append, List.find?, decide_eq_false hp] at *
      exact ih

/-- C5: when a label is bound, the canonical alias is added only if no
binding for the canonical name exists; any existing binding — in particular
one made under the DSL-written name — is never overwritten by the alias. -/
theorem c5_alias_never_overwrites (ps : PState) (name : List Char) (sid : Nat)
    (hfree : lookupLabel ps.state_labels name = none)
    (ps' : PState) (hok : set_label ps name sid = .ok ps') :
    (∀ d w, lookupLabel ps.state_labels d = some w →
      lookupLabel ps'.state_labels d = some w) ∧
    (∀ dn, decorate_lookup (name.map Char.toLower) = some dn →
      lookupLabel ps.state_labels dn = none →
      lookupLabel ps'.state_labels dn = some sid) ∧
    (∀ dn w, decorate_lookup (name.map Char.toLower) = some dn →
      lookupLabel ps.state_labels dn = some w →
      lookupLabel ps'.state_labels dn = some w) := by
  unfold set_label at hok
  rw [hfree] at hok
  simp only [Except.ok.injEq] at hok
  have hlabels : (match decorate_lookup (name.map Char.toLower) with
      | some dn =>
        match lookupLabel (ps.state_labels ++ [(name, sid)]) dn with
        | none => ps.state_labels ++ [(name, sid)] ++ [(dn, sid)]
        | some _ => ps.state_labels ++ [(name, sid)]
      | none => ps.state_labels ++ [(name, sid)]) = ps'.state_labels :=
    congrArg PState.state_labels hok
  cases hdec : decorate_lookup (name.map Char.toLower) with
  | none =>
    rw [hdec] at hlabels
    have hl2 : ps.state_labels ++ [(name, sid)] = ps'.state_labels := hlabels
    refine ⟨?_, ?_, ?_⟩
    · intro d w hd
      rw [← hl2, lookupLabel_append_one, hd]
    · intro dn hdec2 hnone
      exact absurd hdec2 (by simp)
    · intro dn w hdec2 hsome
      exact absurd hdec2 (by simp)
  | some dn0 =>
    rw [hdec] at hlabels
    have hl2 : (match lookupLabel (ps.state_labels ++ [(name, sid)]) dn0 with
        | none => ps.state_labels ++ [(name, sid)] ++ [(dn0, sid)]
        | some _ => ps.state_labels ++ [(name, sid)]) = ps'.state_labels := hlabels
    cases hdn : lookupLabel (ps.state_labels ++ [(name, sid)]) dn0 with
    | some w2 =>
      rw [hdn] at hl2
      have hl3 : ps.state_labels ++ [(name, sid)] = ps'.state_labels := hl2
      refine ⟨?_, ?_, ?_⟩
      · intro d w hd
        rw [← hl3, lookupLabel_append_one, hd]
      · intro dn hdec2 hnone
        have hdd : dn = dn0 := by
          injection hdec2 with h
          exact h.symm
        subst hdd
        have h4 : lookupLabel (ps.state_labels ++ [(name, sid)]) dn = some w2 := hdn
        simp only [lookupLabel_append_one, hnone] at h4
        by_cases hnm : name = dn
        · rw [← hl3]
          simp [lookupLabel_append_one, hnone, hnm]
        · simp [hnm] at h4
      · intro dn w hdec2 hsome
        have hdd : dn = dn0 := by
          injection hdec2 with h
          exact h.symm
        subst hdd
        rw [← hl3, lookupLabel_append_one, hsome]
    | none =>
      rw [hdn] at hl2
      have hl3 : ps.state_labels ++ [(name, sid)] ++ [(dn0, sid)] =
          ps'.state_labels := hl2
      refine ⟨?_, ?_, ?_⟩
      · intro d w hd
        have hm1 : lookupLabel (ps.state_labels ++ [(name, sid)]) d = some w := by
          rw [lookupLabel_append_one, hd]
        rw [← hl3, lookupLabel_append_one, hm1]
      · intro dn hdec2 hnone
        have hdd : dn = dn0 := by
          injection hdec2 with h
          exact h.symm
        subst hdd
        rw [← hl3, lookupLabel_append_one, hdn]
        simp
      · intro dn w hdec2 hsome
        have hdd : dn = dn0 := by
          injection hdec2 with h
          exact h.symm
        subst hdd
        have hm1 : lookupLabel (ps.state_labels ++ [(name, sid)]) dn = some w := by
          rw [lookupLabel_append_one, hsome]
        rw [hdn] at hm1
        exact absurd hm1 (by simp)

/-- C5 witness: `See` is bound while `seestate` is already taken; the alias
does not overwrite the existing `seestate` binding. -/
theorem c5_witness :
    lookupLabel [("seestate".data, 9), ("See".data, 4)] "seestate".data =
      some 9 :=
  (c5_alias_never_overwrites
    ⟨[{}], [("seestate".data, 9)], none, none, [], 1, []⟩ "See".data 4 (by decide)
    ⟨[{}], [("seestate".data, 9), ("See".data, 4)], none, some 4, [], 1, []⟩
    (by decide)).2.2 "seestate".data 9 (by decide) (by decide)

/-- C10: binding any name already present in the label map is the
duplicate-label error, and concretely a program that binds `Spawn` (which
installs the alias `spawnstate`) and later defines the label `spawnstate`
fails with the duplicate-label error even though the user wrote the name
only once. -/
theorem c10_alias_collision :
    (∀ (ps : PState) (name : List Char) (sid w : Nat),
      lookupLabel ps.state_labels name = some w →
      set_label ps name sid = .error (.labelDup ps.line_number name)) ∧
    parse sampleRegs
        "Spawn:\nTROO A 1 A_Look\nLoop\nspawnstate:\nTROO A 1 A_Look\nLoop".data =
      .error (.labelDup 5 "spawnstate".data) := by
  constructor
  · intro ps name sid w h
    unfold set_label
    rw [h]
  · decide

/-- C10 witness: the duplicate-label error at a concrete parser state. -/
theorem c10_witness :
    set_label ⟨[{}], [("q".data, 5)], none, none, [], 2, []⟩ "q".data 0 =
      .error (.labelDup 2 "q".data) :=
  c10_alias_collision.1 ⟨[{}], [("q".data, 5)], none, none, [], 2, []⟩
    "q".data 0 5 (by decide)

/-- The matching step only touches the lines of the parser state. -/
theorem tryMatchAux_core {α : Type} (m : List Char → Option (α × List Char))
    (ps1 : PState) :
    ((tryMatchAux m ps1).2).states = ps1.states ∧
    ((tryMatchAux m ps1).2).state_labels = ps1.state_labels ∧
    ((tryMatchAux m ps1).2).previous_state_id = ps1.previous_state_id ∧
    ((tryMatchAux m ps1).2).loop_start_id = ps1.loop_start_id ∧
    ((tryMatchAux m ps1).2).saved_gotos = ps1.saved_gotos := by
  obtain ⟨a1, a2, a3, a4, a5, a6, lines⟩ := ps1
  cases lines with
  | nil => exact ⟨rfl, rfl, rfl, rfl, rfl⟩
  | cons l rest =>
    simp only [tryMatchAux]
    cases hm : m l with
    | none => simp [hm]
    | some ar =>
      obtain ⟨a, rem⟩ := ar
      simp [hm]

/-- `matches_regexp` only advances the text cursor: every other parser
field is untouched. -/
theorem tryMatch_core {α : Type} (m : List Char → Option (α × List Char))
    (ps : PState) :
    ((tryMatch m ps).2).states = ps.states ∧
    ((tryMatch m ps).2).state_labels = ps.state_labels ∧
    ((tryMatch m ps).2).previous_state_id = ps.previous_state_id ∧
    ((tryMatch m ps).2).loop_start_id = ps.loop_start_id ∧
    ((tryMatch m ps).2).saved_gotos = ps.saved_gotos :=
  tryMatchAux_core m (moreLines ps)

/-- `parse_labels` only consumes text: the collected labels are returned,
nothing is bound and no state is touched. -/
theorem parse_labels_core :
    ∀ (fuel : Nat) (ps : PState) (ls : List (List Char)) (ps' : PState),
    parse_labels fuel ps = .ok (ls, ps') →
    ps'.states = ps.states ∧ ps'.state_labels = ps.state_labels ∧
    ps'.previous_state_id = ps.previous_state_id ∧
    ps'.loop_start_id = ps.loop_start_id ∧
    ps'.saved_gotos = ps.saved_gotos := by
  intro fuel
  induction fuel with
  | zero => intro ps ls ps' h; simp [parse_labels] at h
  | succ n ih =>
    intro ps ls ps' h
    unfold parse_labels at h
    cases htm : tryMatch matchLabel ps with
    | mk o ps1 =>
      have hcore := tryMatch_core matchLabel ps
      rw [htm] at hcore h
      cases o with
      | none =>
        have h2 : (Except.ok (([] : List (List Char)), ps1) :
            Except ParseError (List (List Char) × PState)) = Except.ok (ls, ps') := h
        simp only [Except.ok.injEq, Prod.mk.injEq] at h2
        rw [← h2.2]
        exact hcore
      | some lbl =>
        have h2 : (parse_labels n ps1 >>= fun r =>
            Except.ok ((if lbl ∈ r.1 then r.1 else lbl :: r.1), r.2)) =
            Except.ok (ls, ps') := h
        cases hrec : parse_labels n ps1 with
        | error e => rw [hrec, exbind_error] at h2; exact absurd h2 (by simp)
        | ok r =>
          rw [hrec, exbind_ok] at h2
          simp only [Except.ok.injEq, Prod.mk.injEq] at h2
          rw [← h2.2]
          have hr := ih ps1 r.1 r.2 (by rw [hrec])
          exact ⟨hr.1.trans hcore.1, hr.2.1.trans hcore.2.1,
            hr.2.2.1.trans hcore.2.2.1, hr.2.2.2.1.trans hcore.2.2.2.1,
            hr.2.2.2.2.trans hcore.2.2.2.2⟩

/-- C9: labels followed by anything but a frame definition are consumed and
discarded — a failed `parse_frame_def` attempt leaves the label map, the
states and every run variable untouched and raises nothing — and concretely
a label block sitting directly before a `Loop` statement binds nothing:
the orphan label is absent from the returned map. -/
theorem c9_orphan_labels_discarded :
    (∀ (regs : Regs) (fuel : Nat) (ps ps' : PState),
      parse_frame_def regs fuel ps = .ok (false, ps') →
      ps'.states = ps.states ∧ ps'.state_labels = ps.state_labels ∧
      ps'.previous_state_id = ps.previous_state_id ∧
      ps'.loop_start_id = ps.loop_start_id ∧
      ps'.saved_gotos = ps.saved_gotos) ∧
    parse sampleRegs "Spawn:\nTROO A 1 A_Look\nOrphan:\nLoop".data =
      .ok ([{}, ⟨1, 0, 1, some 10, 1⟩],
        [("Spawn".data, 1), ("spawnstate".data, 1)]) ∧
    lookupLabel [("Spawn".data, 1), ("spawnstate".data, 1)] "Orphan".data =
      none := by
  refine ⟨?_, by decide, by decide⟩
  intro regs fuel ps ps' h
  unfold parse_frame_def at h
  cases hpl : parse_labels fuel ps with
  | error e => rw [hpl, exbind_error] at h; exact absurd h (by simp)
  | ok r =>
    rw [hpl, exbind_ok] at h
    obtain ⟨labels, ps1⟩ := r
    have hlab := parse_labels_core fuel ps labels ps1 (by rw [hpl])
    have h2 : (match tryMatch matchFrame ps1 with
        | (none, ps2) => Except.ok (false, ps2)
        | (some prm, ps2) => do
          let sts ← construct_states regs prm
          let ps3 ← add_states ps2 labels sts
          Except.ok (true, ps3)) = Except.ok (false, ps') := h
    cases htm : tryMatch matchFrame ps1 with
    | mk o ps2 =>
      have hcore := tryMatch_core matchFrame ps1
      rw [htm] at hcore h2
      cases o with
      | none =>
        have h3 : (Except.ok (false, ps2) :
            Except ParseError (Bool × PState)) = Except.ok (false, ps') := h2
        simp only [Except.ok.injEq, Prod.mk.injEq] at h3
        rw [← h3.2]
        exact ⟨hcore.1.trans hlab.1, hcore.2.1.trans hlab.2.1,
          hcore.2.2.1.trans hlab.2.2.1, hcore.2.2.2.1.trans hlab.2.2.2.1,
          hcore.2.2.2.2.trans hlab.2.2.2.2⟩
      | some prm =>
        have h3 : (construct_states regs prm >>= fun sts =>
            add_states ps2 labels sts >>= fun ps3 =>
              Except.ok (true, ps3)) = Except.ok (false, ps') := h2
        cases hcs : construct_states regs prm with
        | error e => rw [hcs, exbind_error] at h3; exact absurd h3 (by simp)
        | ok sts =>
          rw [hcs, exbind_ok] at h3
          cases has : add_states ps2 labels sts with
          | error e => rw [has, exbind_error] at h3; exact absurd h3 (by simp)
          | ok ps3 =>
            rw [has, exbind_ok] at h3
            simp at h3

/-- C9 witness: a frame-definition attempt on a line that is no frame
definition returns `False` with the parser state unchanged. -/
theorem c9_witness :
    (⟨[{}], [], none, none, [], 1, [['-']]⟩ : PState).states = [{}] ∧
    (⟨[{}], [], none, none, [], 1, [['-']]⟩ : PState).state_labels = [] :=
  ⟨((c9_orphan_labels_discarded.1 sampleRegs 3
      ⟨[{}], [], none, none, [], 1, [['-']]⟩
      ⟨[{}], [], none, none, [], 1, [['-']]⟩ (by decide)).1),
   ((c9_orphan_labels_discarded.1 sampleRegs 3
      ⟨[{}], [], none, none, [], 1, [['-']]⟩
      ⟨[{}], [], none, none, [], 1, [['-']]⟩ (by decide)).2.1)⟩

/-- A successful `pyGetState` read determines the pure link-chase step. -/
theorem chain_next_of_pyGetState (states : List state_t) (sid : Int)
    (st : state_t) (h : pyGetState states sid = .ok st) :
    chain_next states sid = some st.nextstate := by
  unfold pyGetState at h
  cases hpy : pyIdx states.length sid with
  | none => rw [hpy] at h; exact absurd h (by simp)
  | some k =>
    rw [hpy] at h
    have h2 : (match states[k]? with
        | some s => Except.ok s
        | none => Except.error ParseError.indexErr) = Except.ok st := h
    cases hk : states[k]? with
    | none => rw [hk] at h2; exact absurd h2 (by simp)
    | some s2 =>
      rw [hk] at h2
      simp only [Except.ok.injEq] at h2
      rw [← h2]
      simp [chain_next, hpy, hk]

/-- C1 (amended): goto resolution starts at the target label's state and
follows exactly `offset` link-hops; a link value of -1 encountered before
the hops are exhausted aborts with the out-of-range-offset error (a link of
0 does not abort — the hop continues from state 0); a goto to a label
absent from the label map fails with the unknown-label error; otherwise the
result is the `offset`-fold link-chase from the label's state, and
`apply_gotos` writes the resolved index into the origin state's link. -/
theorem c1_goto_resolution :
    (∀ (states : List state_t) (labels : List (List Char × Nat))
        (ln : Nat) (lbl : List Char) (off : Nat),
      lookupLabel labels lbl = none →
      resolve_goto states labels ln lbl off =
        .error (.gotoUnknownLabel ln lbl)) ∧
    (∀ (states : List state_t) (labels : List (List Char × Nat))
        (ln : Nat) (lbl : List Char) (off sid : Nat),
      lookupLabel labels lbl = some sid →
      resolve_goto states labels ln lbl off =
        goto_hops states ln lbl off off (sid : Int)) ∧
    (∀ (states : List state_t) (ln : Nat) (lbl : List Char) (off0 : Nat)
        (sid : Int), goto_hops states ln lbl off0 0 sid = .ok sid) ∧
    (∀ (states : List state_t) (ln : Nat) (lbl : List Char) (off0 k : Nat)
        (sid : Int) (st : state_t), pyGetState states sid = .ok st →
      st.nextstate = -1 →
      goto_hops states ln lbl off0 (k + 1) sid =
        .error (.gotoOffsetRange ln lbl off0)) ∧
    (∀ (states : List state_t) (ln : Nat) (lbl : List Char) (off0 k : Nat)
        (sid : Int) (st : state_t), pyGetState states sid = .ok st →
      st.nextstate ≠ -1 →
      goto_hops states ln lbl off0 (k + 1) sid =
        goto_hops states ln lbl off0 k st.nextstate) ∧
    (∀ (states : List state_t) (ln : Nat) (lbl : List Char) (off0 k : Nat)
        (sid r : Int), goto_hops states ln lbl off0 k sid = .ok r →
      chain_iter states k sid = some r) ∧
    (∀ (labels : List (List Char × Nat)) (states : List state_t)
        (ln org : Nat) (lbl : List Char) (off : Nat)
        (rest : List (Nat × Nat × List Char × Nat)) (r : Int) (st : state_t),
      resolve_goto states labels ln lbl off = .ok r →
      states[org]? = some st →
      apply_gotos labels states ((ln, org, lbl, off) :: rest) =
        apply_gotos labels (states.set org { st with nextstate := r }) rest) := by
  refine ⟨?_, ?_, ?_, ?_, ?_, ?_, ?_⟩
  · intro states labels ln lbl off h
    unfold resolve_goto
    rw [h]
  · intro states labels ln lbl off sid h
    unfold resolve_goto
    rw [h]
  · intro states ln lbl off0 sid
    rfl
  · intro states ln lbl off0 k sid st hget hneg
    show (pyGetState states sid >>= fun s =>
        if s.nextstate = -1 then Except.error (ParseError.gotoOffsetRange ln lbl off0)
        else goto_hops states ln lbl off0 k s.nextstate) =
      Except.error (ParseError.gotoOffsetRange ln lbl off0)
    rw [hget, exbind_ok, if_pos hneg]
  · intro states ln lbl off0 k sid st hget hne
    show (pyGetState states sid >>= fun s =>
        if s.nextstate = -1 then Except.error (ParseError.gotoOffsetRange ln lbl off0)
        else goto_hops states ln lbl off0 k s.nextstate) =
      goto_hops states ln lbl off0 k st.nextstate
    rw [hget, exbind_ok, if_neg hne]
  · intro states ln lbl off0 k
    induction k with
    | zero =>
      intro sid r h
      have h2 : (Except.ok sid : Except ParseError Int) = .ok r := h
      simp only [Except.ok.injEq] at h2
      rw [← h2]
      rfl
    | succ n ih =>
      intro sid r h
      have h2 : (pyGetState states sid >>= fun s =>
          if s.nextstate = -1 then .error (.gotoOffsetRange ln lbl off0)
          else goto_hops states ln lbl off0 n s.nextstate) = .ok r := h
      cases hget : pyGetState states sid with
      | error e => rw [hget, exbind_error] at h2; exact absurd h2 (by simp)
      | ok st =>
        rw [hget, exbind_ok] at h2
        by_cases hne : st.nextstate = -1
        · rw [if_pos hne] at h2
          exact absurd h2 (by simp)
        · rw [if_neg hne] at h2
          have := ih st.nextstate r h2
          unfold chain_iter
          rw [chain_next_of_pyGetState states sid st hget]
          simpa using this
  · intro labels states ln org lbl off rest r st hres horg
    show (resolve_goto states labels ln lbl off >>= fun r2 =>
        match states[org]? with
        | none => Except.error ParseError.indexErr
        | some s =>
          apply_gotos labels (states.set org { s with nextstate := r2 }) rest) =
      apply_gotos labels (states.set org { st with nextstate := r }) rest
    rw [hres, exbind_ok, horg]

/-- C1 counterexample: a goto whose offset overruns the one-state sequence
resolves without any error — the link value 0 reached after the first hop
does not trigger the out-of-range error; resolution continues through
state 0 and parsing succeeds. -/
theorem c1_counterexample :
    resolve_goto [{}, { sprite := 1, tics := 1, action := some 10 }]
        [("Spawn".data, 1)] 3 "Spawn".data 2 = .ok 0 ∧
    ({ sprite := 1, tics := 1, action := some 10 } : state_t).nextstate = 0 ∧
    parse sampleRegs "Spawn:\nTROO A 1 A_Look\nGoto Spawn+2".data =
      .ok ([{}, ⟨1, 0, 1, some 10, 0⟩],
        [("Spawn".data, 1), ("spawnstate".data, 1)]) := by
  exact ⟨by decide, by decide, by decide⟩

/-- C1 witness: the unknown-label error, one -1-free hop, and the chain
value of a resolved hop sequence, at concrete inputs. -/
theorem c1_witness :
    resolve_goto [{}] [] 2 "x".data 1 = .error (.gotoUnknownLabel 2 "x".data) ∧
    goto_hops [{}] 9 "x".data 2 1 0 = goto_hops [{}] 9 "x".data 2 0 0 ∧
    chain_iter [{}] 1 0 = some 0 :=
  ⟨c1_goto_resolution.1 [{}] [] 2 "x".data 1 (by decide),
   c1_goto_resolution.2.2.2.2.1 [{}] 9 "x".data 2 0 0 {} (by decide) (by decide),
   c1_goto_resolution.2.2.2.2.2.1 [{}] 1 "x".data 7 1 0 0 (by decide)⟩

/-- C4: parsing the two-label spec example yields 7 states (the NULL at
index 0 plus 6 non-NULL states), `Spawn` bound to state 1 with link chain
1→2→1, `See` bound to state 3 with link chain 3→4→5→6→3, and the canonical
aliases `spawnstate`→1 and `seestate`→3. -/
theorem c4_spec_example :
    parse sampleRegs
        "Spawn:\nTROO AB 10 A_Look\nLoop\nSee:\nTROO AABB 3 A_Chase\nLoop".data =
      .ok ([{}, ⟨1, 0, 10, some 10, 2⟩, ⟨1, 1, 10, some 10, 1⟩,
            ⟨1, 0, 3, some 11, 4⟩, ⟨1, 0, 3, some 11, 5⟩,
            ⟨1, 1, 3, some 11, 6⟩, ⟨1, 1, 3, some 11, 3⟩],
           [("Spawn".data, 1), ("spawnstate".data, 1),
            ("See".data, 3), ("seestate".data, 3)]) ∧
    ([{}, ⟨1, 0, 10, some 10, 2⟩, ⟨1, 1, 10, some 10, 1⟩,
      ⟨1, 0, 3, some 11, 4⟩, ⟨1, 0, 3, some 11, 5⟩,
      ⟨1, 1, 3, some 11, 6⟩, ⟨1, 1, 3, some 11, 3⟩] : List state_t).length = 7 ∧
    (([{}, ⟨1, 0, 10, some 10, 2⟩, ⟨1, 1, 10, some 10, 1⟩,
       ⟨1, 0, 3, some 11, 4⟩, ⟨1, 0, 3, some 11, 5⟩,
       ⟨1, 1, 3, some 11, 6⟩, ⟨1, 1, 3, some 11, 3⟩] : List state_t).drop 1).all
      (fun s => s ≠ {}) ∧
    ([{}, ⟨1, 0, 10, some 10, 2⟩, ⟨1, 1, 10, some 10, 1⟩,
      ⟨1, 0, 3, some 11, 4⟩, ⟨1, 0, 3, some 11, 5⟩,
      ⟨1, 1, 3, some 11, 6⟩, ⟨1, 1, 3, some 11, 3⟩] : List state_t).map
      (fun s => s.nextstate) = [0, 2, 1, 4, 5, 6, 3] ∧
    lookupLabel [("Spawn".data, 1), ("spawnstate".data, 1),
      ("See".data, 3), ("seestate".data, 3)] "Spawn".data = some 1 ∧
    lookupLabel [("Spawn".data, 1), ("spawnstate".data, 1),
      ("See".data, 3), ("seestate".data, 3)] "spawnstate".data = some 1 ∧
    lookupLabel [("Spawn".data, 1), ("spawnstate".data, 1),
      ("See".data, 3), ("seestate".data, 3)] "See".data = some 3 ∧
    lookupLabel [("Spawn".data, 1), ("spawnstate".data, 1),
      ("See".data, 3), ("seestate".data, 3)] "seestate".data = some 3 := by
  exact ⟨by decide, by decide, by decide, by decide, by decide, by decide,
    by decide, by decide⟩

/-- C8 counterexample: a requested field whose external name is the empty
string — non-null — contributes no line and suppresses the header: the code
skips every Python-falsy external name, not only null ones. -/
theorem c8_counterexample :
    dehacked_output (fun v : Int => toString v) ⟨"T", [("f", some "")]⟩
        ⟨[5], ([5], [])⟩ ["f"] 0 = .ok "" ∧
      field_deh_name ⟨"T", [("f", some "")]⟩ "f" = some (some "") :=
  ⟨rfl, rfl⟩

/-- C8 witness: rendering two fields of a concrete `sfxinfo_t` instance —
one null-named and skipped, one emitted after the header. -/
theorem c8_witness :
    dehacked_output (fun v : Int => toString v) sfxinfo_t
        ⟨[0, 1, 2, 3, 4, 5, 6, 7, 8], ([], [])⟩ ["name", "singularity"] 4 =
      .ok "Sound 4\nZero/One = 1" := by
  rw [c8_render_structure (fun v : Int => toString v) sfxinfo_t
    ⟨[0, 1, 2, 3, 4, 5, 6, 7, 8], ([], [])⟩ ["name", "singularity"] 4 (by decide)]
  rfl

end DEH
